import Mathlib

/-
Verification of the CompositeJK core (psi4/src/psi4/libfock/CompositeJK.cc).

This file shallowly embeds the parts of CompositeJK that the checked
properties are about: the SCF_TYPE tag parsing and configuration
validation of `common_init`, the capability guards of `set_do_K`,
`compute_JK` and `build_linK`, the incremental-Fock controller
(`incfock_setup` / `incfock_postiter` and the preprocessing in
`compute_JK`), the screened forward contraction of `build_DirectDFJ`,
the early-exit candidate scans and degeneracy prefactors of
`build_linK`, and the final symmetrization of all three builders.

C++ doubles are modelled as rationals (the properties below are about
control flow and exact algebraic structure, not rounding), machine
size_t as naturals with explicit reduction modulo 2^64 where the code
relies on wraparound, dense matrices as rational-valued functions or as
lists of rows, and C++ exceptions as `Except` values.
-/

namespace CompositeJK

/-! ## SCF_TYPE tag parsing (common_init, CompositeJK.cc lines 192-200) -/

/-- Value of std::string::npos for a 64-bit size_t. -/
def NPOS : Nat := 2 ^ 64 - 1

/-- C++ std::string::find for a single character: index of the first
occurrence, NPOS when the character is absent. -/
def strFind : List Char → Char → Nat
  | [], _ => NPOS
  | c :: rest, t =>
    if c = t then 0
    else
      let r := strFind rest t
      if r = NPOS then NPOS else r + 1

/-- C++ std::string::substr(pos, count): the count characters starting at
position pos, clamped to the end of the string. -/
def substr (s : List Char) (pos count : Nat) : List Char := (s.drop pos).take count

/-- The J selector: jk_type.substr(0, jk_type.find("+")). -/
def j_type (s : List Char) : List Char := substr s 0 (strFind s '+')

/-- The K selector before the identical-parts rule:
jk_type.substr(jk_type.find("+") + 1, jk_type.length()).  The addition
find("+") + 1 is size_t arithmetic, hence the reduction modulo 2^64:
when find returns npos the start position wraps around to 0. -/
def k_type_raw (s : List Char) : List Char :=
  substr s ((strFind s '+' + 1) % 2 ^ 64) s.length

/-- The K selector actually stored: if it equals the J selector it is
replaced by "NONE" (k_type_ = "NONE" when k_type_ == j_type_). -/
def k_type (s : List Char) : List Char :=
  if k_type_raw s = j_type s then "NONE".toList else k_type_raw s

/-! ## Configuration validation (common_init, lines 182-188, 237-250, 255-395) -/

/-- Discriminator for Except results (true on ok, false on error). -/
def exceptOk {ε α : Type} : Except ε α → Bool
  | .ok _ => true
  | .error _ => false

deriving instance DecidableEq for Except

/-- Validation performed by common_init, in source order: the
INCFOCK_FULL_FOCK_EVERY guard (line 186), then the J-algorithm dispatch
(DFDIRJ or fatal, lines 237-250), then the K-algorithm dispatch (LINK,
COSX, NONE or fatal, lines 255-395).  On success it returns the parsed
selector pair. -/
def common_init_check (incfock_full_fock_every : Int) (scf_type : List Char) :
    Except (List Char) (List Char × List Char) :=
  if incfock_full_fock_every ≤ 0 then
    .error "Invalid input for option INCFOCK_FULL_FOCK_EVERY".toList
  else
    let j := j_type scf_type
    let k := k_type scf_type
    if j = "DFDIRJ".toList then
      if k = "LINK".toList ∨ k = "COSX".toList ∨ k = "NONE".toList then .ok (j, k)
      else .error "Invalid Composite K algorithm selected!".toList
    else .error "Invalid Composite J algorithm selected!".toList

/-! ## Capability guards (set_do_K lines 398-416, compute_JK line 518, build_linK lines 834-836) -/

/-- Guard of set_do_K: requesting K with no composite K algorithm
configured is fatal; otherwise the flag is stored. -/
def set_do_K (k_type_val : List Char) (do_K : Bool) : Except (List Char) Bool :=
  if do_K = true ∧ k_type_val = "NONE".toList then
    .error "No composite K build algorithm was specified".toList
  else .ok do_K

/-- Guard at the head of build_linK: a non-symmetric exchange build is
fatal. -/
def build_linK_check (lr_symmetric : Bool) : Except (List Char) Unit :=
  if lr_symmetric = false then
    .error "Non-symmetric K matrix builds are currently not supported in the LinK algorithm.".toList
  else .ok ()

/-! ## Incremental-Fock controller state (incfock_setup lines 485-505, incfock_postiter lines 507-513, compute_JK lines 515-585) -/

/-- Dense matrices of the controller state, as lists of rows. -/
abbrev Mat := List (List ℚ)

/-- Matrix::subtract, elementwise. -/
def matSub (A B : Mat) : Mat := List.zipWith (List.zipWith (fun x y => x - y)) A B

/-- Matrix::zero on a matrix of the given shape (the zero() call in JK
resets each output accumulator to a zero matrix of its own shape). -/
def matZeroLike (A : Mat) : Mat := A.map (fun row => row.map (fun _ => (0 : ℚ)))

/-- The per-iteration state touched by the incremental-Fock controller:
current densities D_ao_, the previous-density cache D_prev_, the
reference density D_ref_ handed to the builders, the output accumulators
J_ao_ and K_ao_, and the controller scalars. -/
structure JKState where
  D_ao : List Mat
  D_prev : List Mat
  D_ref : List Mat
  J_ao : List Mat
  K_ao : List Mat
  initial_iteration : Bool
  incfock_count : Nat
  do_incfock_iter : Bool
deriving DecidableEq

/-- incfock_setup (lines 485-505).  On a non-incremental iteration (or on
the fallback when the previous-density cache is missing or mismatched)
the reference density is the current density and the accumulators are
zeroed; on an incremental iteration the reference density is
current − previous, channelwise (clone then subtract). -/
def incfock_setup (st : JKState) : JKState :=
  if st.do_incfock_iter then
    let njk := st.D_ao.length
    if st.initial_iteration ∨ st.D_prev.length ≠ njk then
      { st with initial_iteration := true, D_ref := st.D_ao,
                J_ao := st.J_ao.map matZeroLike, K_ao := st.K_ao.map matZeroLike }
    else
      { st with D_ref := List.zipWith matSub st.D_ao st.D_prev }
  else
    { st with D_ref := st.D_ao,
              J_ao := st.J_ao.map matZeroLike, K_ao := st.K_ao.map matZeroLike }

/-- incfock_postiter (lines 507-513): the previous-density cache is
cleared and refilled with a clone of each current density matrix; a
clone is a value copy in this embedding. -/
def incfock_postiter (st : JKState) : JKState :=
  { st with D_prev := st.D_ao }

/-- The INCFOCK preprocessing block of compute_JK (lines 521-534):
decide do_incfock_iter_ from Dnorm, initial_iteration_ and
incfock_count_ % reset, bump incfock_count_, then run incfock_setup.
incfock_count_ is a C++ int that starts at 0 and is only incremented,
and reset is validated positive, so Nat arithmetic with Nat.mod agrees
with the C++ semantics. -/
def compute_JK_incfock_pre (reset : Nat) (conv Dnorm : ℚ) (st : JKState) : JKState :=
  let flag := decide (Dnorm ≥ conv) && !st.initial_iteration &&
    decide (st.incfock_count % reset ≠ reset - 1)
  let st1 := { st with do_incfock_iter := flag }
  let st2 :=
    if !st1.initial_iteration && decide (Dnorm ≥ conv) then
      { st1 with incfock_count := st1.incfock_count + 1 }
    else st1
  incfock_setup st2

/-- compute_JK (lines 515-585).  The wK guard is first; then either the
INCFOCK preprocessing or the plain D_ref_ = D_ao_; zero(); then the J
and K builds (passed in as functions from the reference density and the
current accumulator to the new accumulator — build_DirectDFJ writes only
J_ao_ and build_linK / build_COSK write only K_ao_, and none of them
touch the controller state); then incfock_postiter when incremental
Fock is enabled; finally initial_iteration_ is lowered. -/
def compute_JK (incfock do_wK do_J do_K : Bool) (reset : Nat) (conv Dnorm : ℚ)
    (buildJ buildK : List Mat → List Mat → List Mat) (st : JKState) :
    Except (List Char) JKState :=
  if do_wK then .error "CompositeJK algorithms do not support wK integrals yet!".toList
  else
    let st1 :=
      if incfock then compute_JK_incfock_pre reset conv Dnorm st
      else { st with D_ref := st.D_ao,
                     J_ao := st.J_ao.map matZeroLike, K_ao := st.K_ao.map matZeroLike }
    let st2 := if do_J then { st1 with J_ao := buildJ st1.D_ref st1.J_ao } else st1
    let st3 := if do_K then { st2 with K_ao := buildK st2.D_ref st2.K_ao } else st2
    let st4 := if incfock then incfock_postiter st3 else st3
    .ok (if st4.initial_iteration then { st4 with initial_iteration := false } else st4)

/-- The condition under which compute_JK performs an incremental
iteration: not the first iteration, previous-density cache with the same
channel count as the current density list, density change at or above
the convergence floor, and the incremental counter not at the reset
cadence boundary. -/
def incfock_incremental_cond (reset : Nat) (conv Dnorm : ℚ) (st : JKState) : Prop :=
  st.initial_iteration = false ∧ st.D_prev.length = st.D_ao.length ∧
    conv ≤ Dnorm ∧ st.incfock_count % reset ≠ reset - 1

instance (reset : Nat) (conv Dnorm : ℚ) (st : JKState) :
    Decidable (incfock_incremental_cond reset conv Dnorm st) := by
  unfold incfock_incremental_cond; infer_instance

/-! ## Helper lemmas about strFind -/

theorem strFind_append_cons (a b : List Char) (t : Char) (ha : t ∉ a)
    (hlen : a.length < NPOS) : strFind (a ++ t :: b) t = a.length := by
  induction a with
  | nil => simp [strFind]
  | cons c a ih =>
    have hc : c ≠ t := by
      intro h; exact ha (h ▸ List.mem_cons_self c a)
    have ha' : t ∉ a := fun h => ha (List.mem_cons_of_mem c h)
    have hlen' : a.length < NPOS := by
      simp only [List.length_cons] at hlen; omega
    have hne : a.length ≠ NPOS := Nat.ne_of_lt hlen'
    simp [strFind, hc, ih ha' hlen', hne]

theorem strFind_eq_NPOS (s : List Char) (t : Char) (h : t ∉ s) :
    strFind s t = NPOS := by
  induction s with
  | nil => rfl
  | cons c s ih =>
    have hc : c ≠ t := by
      intro hh; exact h (hh ▸ List.mem_cons_self c s)
    have h' : t ∉ s := fun hh => h (List.mem_cons_of_mem c hh)
    simp [strFind, hc, ih h']

/-- C6: for every algorithm tag of the form a ++ "+" ++ b with no '+' in a,
common_init splits it at the first '+' into the J selector a and the K
selector b, and replaces the K selector by "NONE" exactly when the two
parts are identical strings. -/
theorem scf_type_split (a b : List Char) (ha : '+' ∉ a)
    (hlen : a.length + 1 < 2 ^ 64) :
    j_type (a ++ '+' :: b) = a ∧
      k_type (a ++ '+' :: b) = (if b = a then "NONE".toList else b) := by
  have hlt : a.length < NPOS := by unfold NPOS; omega
  have hfind : strFind (a ++ '+' :: b) '+' = a.length :=
    strFind_append_cons a b '+' ha hlt
  have hj : j_type (a ++ '+' :: b) = a := by
    simp [j_type, substr, hfind, List.take_left]
  have hmod : (a.length + 1) % 2 ^ 64 = a.length + 1 := Nat.mod_eq_of_lt hlen
  have hdrop : (a ++ '+' :: b).drop (a.length + 1) = b := by
    have : a ++ '+' :: b = (a ++ ['+']) ++ b := by simp
    rw [this]
    have hl : (a ++ ['+']).length = a.length + 1 := by simp
    rw [← hl, List.drop_left]
  have hk : k_type_raw (a ++ '+' :: b) = b := by
    simp only [k_type_raw, substr, hfind, hmod, hdrop]
    apply List.take_of_length_le
    simp
    omega
  refine ⟨hj, ?_⟩
  simp only [k_type, hk, hj]

/-- Witness for scf_type_split at the tag "DFDIRJ+LINK". -/
theorem scf_type_split_witness :
    j_type ("DFDIRJ+LINK".toList) = "DFDIRJ".toList ∧
      k_type ("DFDIRJ+LINK".toList) = "LINK".toList := by
  have h := scf_type_split "DFDIRJ".toList "LINK".toList (by decide) (by decide)
  have heq : "DFDIRJ".toList ++ '+' :: "LINK".toList = "DFDIRJ+LINK".toList := by decide
  rw [heq] at h
  refine ⟨h.1, ?_⟩
  rw [h.2]
  decide

/-- C10: a tag without '+' yields the whole tag as the J selector, and the
size_t wraparound (npos + 1 = 0) makes the raw K selector equal the whole
tag as well, which triggers the identical-parts rule, so the K selector
becomes "NONE". -/
theorem scf_type_bare_tag (s : List Char) (h : '+' ∉ s) (hs : s.length ≤ NPOS) :
    j_type s = s ∧ k_type s = "NONE".toList := by
  have hfind : strFind s '+' = NPOS := strFind_eq_NPOS s '+' h
  have hj : j_type s = s := by
    simp only [j_type, substr, hfind, List.drop_zero]
    exact List.take_of_length_le hs
  have hmod : (NPOS + 1) % 2 ^ 64 = 0 := by unfold NPOS; omega
  have hk : k_type_raw s = s := by
    simp only [k_type_raw, substr, hfind, hmod, List.drop_zero]
    exact List.take_of_length_le (Nat.le_refl _)
  refine ⟨hj, ?_⟩
  simp [k_type, hk, hj]

/-- Witness for scf_type_bare_tag at the tag "DFDIRJ". -/
theorem scf_type_bare_tag_witness :
    j_type ("DFDIRJ".toList) = "DFDIRJ".toList ∧
      k_type ("DFDIRJ".toList) = "NONE".toList :=
  scf_type_bare_tag "DFDIRJ".toList (by decide) (by decide)

/-- C7: common_init throws exactly when the incremental-Fock reset cadence
is nonpositive, or the parsed J selector is not DFDIRJ, or the parsed K
selector is none of LINK, COSX and NONE. -/
theorem common_init_fatal_iff (e : Int) (s : List Char) :
    exceptOk (common_init_check e s) = false ↔
      (e ≤ 0 ∨ j_type s ≠ "DFDIRJ".toList ∨
        (k_type s ≠ "LINK".toList ∧ k_type s ≠ "COSX".toList ∧
          k_type s ≠ "NONE".toList)) := by
  by_cases h1 : e ≤ 0
  · simp [common_init_check, exceptOk, h1]
  · by_cases h2 : j_type s = "DFDIRJ".toList
    · by_cases h3 : k_type s = "LINK".toList ∨ k_type s = "COSX".toList ∨
          k_type s = "NONE".toList
      · rcases h3 with h3 | h3 | h3 <;>
          · simp_all [common_init_check, exceptOk]
            rw [if_neg (by omega : ¬ e ≤ 0)]
            simp
            omega
      · simp_all [common_init_check, exceptOk]
        rw [if_neg (by omega : ¬ e ≤ 0)]
    · simp_all [common_init_check, exceptOk]
      rw [if_neg (by omega : ¬ e ≤ 0)]

/-- C8: the three capability-mismatch guards are fatal at the point of
use: set_do_K errors exactly when K is requested while the K selector is
NONE; compute_JK errors whenever wK is requested; the guard at the head
of build_linK errors exactly when the exchange build is not declared
symmetric. -/
theorem capability_mismatch_fatal :
    (∀ (kt : List Char) (b : Bool),
        exceptOk (set_do_K kt b) = false ↔ (b = true ∧ kt = "NONE".toList)) ∧
      (∀ (incfock do_J do_K : Bool) (reset : Nat) (conv Dnorm : ℚ)
          (buildJ buildK : List Mat → List Mat → List Mat) (st : JKState),
          compute_JK incfock true do_J do_K reset conv Dnorm buildJ buildK st =
            .error "CompositeJK algorithms do not support wK integrals yet!".toList) ∧
      (∀ b : Bool, exceptOk (build_linK_check b) = false ↔ b = false) := by
  refine ⟨?_, ?_, ?_⟩
  · intro kt b
    unfold set_do_K
    split_ifs with h <;> simp_all [exceptOk]
  · intro incfock do_J do_K reset conv Dnorm buildJ buildK st
    rfl
  · intro b
    unfold build_linK_check
    split_ifs with h <;> simp_all [exceptOk]

/-- C1: with incremental Fock enabled, the preprocessing of compute_JK
performs an incremental iteration exactly when the iteration is not the
first, the previous-density cache has the same channel count as the
current density list, the density-change norm is at or above the
convergence floor, and the incremental counter has not hit the reset
cadence boundary; then the reference density is current minus previous
and the accumulators are kept.  In every other case the iteration is
full: the reference density is the current density and both output
accumulators are zeroed. -/
theorem incfock_iteration_choice (reset : Nat) (conv Dnorm : ℚ) (st : JKState) :
    (incfock_incremental_cond reset conv Dnorm st →
      (compute_JK_incfock_pre reset conv Dnorm st).D_ref =
          List.zipWith matSub st.D_ao st.D_prev ∧
        (compute_JK_incfock_pre reset conv Dnorm st).J_ao = st.J_ao ∧
        (compute_JK_incfock_pre reset conv Dnorm st).K_ao = st.K_ao) ∧
      (¬ incfock_incremental_cond reset conv Dnorm st →
        (compute_JK_incfock_pre reset conv Dnorm st).D_ref = st.D_ao ∧
          (compute_JK_incfock_pre reset conv Dnorm st).J_ao =
              st.J_ao.map matZeroLike ∧
            (compute_JK_incfock_pre reset conv Dnorm st).K_ao =
              st.K_ao.map matZeroLike) := by
  constructor
  · rintro ⟨h1, h2, h3, h4⟩
    simp [compute_JK_incfock_pre, incfock_setup, h1, h2, h3, h4]
  · intro hc
    by_cases h1 : st.initial_iteration = true
    · simp [compute_JK_incfock_pre, incfock_setup, h1]
    · have h1f : st.initial_iteration = false := by
        simpa using h1
      by_cases h3 : conv ≤ Dnorm
      · by_cases h4 : st.incfock_count % reset = reset - 1
        · simp [compute_JK_incfock_pre, incfock_setup, h1f, h3, h4]
        · by_cases h2 : st.D_prev.length = st.D_ao.length
          · exact absurd ⟨h1f, h2, h3, h4⟩ hc
          · simp [compute_JK_incfock_pre, incfock_setup, h1f, h3, h4, h2]
      · simp [compute_JK_incfock_pre, incfock_setup, h1f, h3]

/-- Concrete controller state used to witness incfock_iteration_choice. -/
def c1state : JKState :=
  { D_ao := [[[2]]], D_prev := [[[1]]], D_ref := [], J_ao := [[[5]]],
    K_ao := [[[7]]], initial_iteration := false, incfock_count := 0,
    do_incfock_iter := false }

/-- Witness for incfock_iteration_choice: a state satisfying the
incremental condition, on which the reference density comes out as the
density delta. -/
theorem incfock_iteration_choice_witness :
    incfock_incremental_cond 2 0 1 c1state ∧
      (compute_JK_incfock_pre 2 0 1 c1state).D_ref =
        List.zipWith matSub c1state.D_ao c1state.D_prev :=
  ⟨by decide, ((incfock_iteration_choice 2 0 1 c1state).1 (by decide)).1⟩

/-- The INCFOCK preprocessing reads but never writes the current density
and the previous-density cache. -/
theorem compute_JK_pre_frame (reset : Nat) (conv Dnorm : ℚ) (st : JKState) :
    (compute_JK_incfock_pre reset conv Dnorm st).D_ao = st.D_ao ∧
      (compute_JK_incfock_pre reset conv Dnorm st).D_prev = st.D_prev := by
  simp only [compute_JK_incfock_pre, incfock_setup]
  split_ifs <;> exact ⟨rfl, rfl⟩

/-- C9: whenever incremental Fock is enabled, a completed compute_JK call
leaves the previous-density cache equal to (a clone of) the current
density — on full and incremental iterations alike — and when it is
disabled the cache is untouched; no other part of the build writes it. -/
theorem incfock_prev_density_overwrite (incfock do_J do_K : Bool) (reset : Nat)
    (conv Dnorm : ℚ) (buildJ buildK : List Mat → List Mat → List Mat)
    (st st' : JKState)
    (h : compute_JK incfock false do_J do_K reset conv Dnorm buildJ buildK st =
      .ok st') :
    (incfock = true → st'.D_prev = st.D_ao) ∧
      (incfock = false → st'.D_prev = st.D_prev) := by
  unfold compute_JK at h
  simp only [Bool.false_eq_true, if_false, Except.ok.injEq] at h
  subst h
  cases incfock
  · refine ⟨fun hh => by simp at hh, fun _ => ?_⟩
    cases do_J <;> cases do_K <;> simp [apply_ite (JKState.D_prev)]
  · refine ⟨fun _ => ?_, fun hh => by simp at hh⟩
    cases do_J <;> cases do_K <;>
      simp [apply_ite (JKState.D_prev), incfock_postiter,
        (compute_JK_pre_frame reset conv Dnorm st).1]

/-- Concrete pre-state used to witness incfock_prev_density_overwrite. -/
def c9state : JKState :=
  { D_ao := [[]], D_prev := [[]], D_ref := [], J_ao := [[]],
    K_ao := [[]], initial_iteration := false, incfock_count := 0,
    do_incfock_iter := false }

/-- Post-state of compute_JK on c9state. -/
def c9result : JKState :=
  { D_ao := [[]], D_prev := [[]], D_ref := [[]], J_ao := [[]],
    K_ao := [[]], initial_iteration := false, incfock_count := 1,
    do_incfock_iter := true }

/-- Witness for incfock_prev_density_overwrite on a concrete state with
incremental Fock enabled. -/
theorem incfock_prev_density_overwrite_witness :
    c9result.D_prev = c9state.D_ao :=
  (incfock_prev_density_overwrite true true true 2 0 1 (fun _ j => j)
    (fun _ k => k) c9state c9result (by decide)).1 rfl

/-! ## build_DirectDFJ forward contraction (lines 591-713) -/

/-- Function index (index of the first basis function) of shell M, for a
basis described by the function count of each shell. -/
def function_index (counts : List ℕ) (M : ℕ) : ℕ := (counts.take M).sum

/-- Function count of shell M. -/
def nfunction (counts : List ℕ) (M : ℕ) : ℕ := counts.getD M 0

/-- Sum of a rational function over an index range. -/
def sumRange (n : ℕ) (f : ℕ → ℚ) : ℚ := ((List.range n).map f).sum

/-- Inputs of build_DirectDFJ that the forward contraction reads: the
primary and auxiliary shell structure, the significant shell-pair list
and Schwarz-type pair bounds of the 3-center ERI engine, the Coulomb
fitting metric, the 3-index integrals (p|mn) by global function indices,
and the integral tolerance (INTS_TOLERANCE, squared into thresh2 at line
608). -/
structure DFJParams where
  counts : List ℕ
  aux_counts : List ℕ
  shell_pairs : List (ℕ × ℕ)
  shell_pair_value : ℕ → ℕ → ℚ
  J_metric : ℕ → ℕ → ℚ
  eri3 : ℕ → ℕ → ℕ → ℚ
  tol : ℚ

/-- Shell-pair maxima of the density matrices (lines 640-658): running
maximum of the absolute density entries over all channels and all
function pairs of the shell pair, starting from zero. -/
def Dshell (counts : List ℕ) (D : List (ℕ → ℕ → ℚ)) (M N : ℕ) : ℚ :=
  D.foldl (fun acc Dk =>
    (List.range (nfunction counts M)).foldl (fun acc2 m =>
      (List.range (nfunction counts N)).foldl (fun acc3 n =>
        max acc3 |Dk (function_index counts M + m) (function_index counts N + n)|)
        acc2) acc) 0

/-- Diagonal shell maxima of the Coulomb metric (lines 630-637). -/
def J_metric_shell_diag (aux_counts : List ℕ) (Jm : ℕ → ℕ → ℚ) (P : ℕ) : ℚ :=
  (List.range (nfunction aux_counts P)).foldl
    (fun acc i =>
      max acc (Jm (function_index aux_counts P + i) (function_index aux_counts P + i)))
    0

/-- Screening test of the forward contraction (line 684): triplet
(P,(M,N)) is skipped when Dshell[M][N] * Dshell[M][N] *
J_metric_shell_diag[P] * shell_pair_value(M,N) < thresh2. -/
def tripletSkipped (pa : DFJParams) (D : List (ℕ → ℕ → ℚ)) (P M N : ℕ) : Bool :=
  decide (Dshell pa.counts D M N * Dshell pa.counts D M N *
    J_metric_shell_diag pa.aux_counts pa.J_metric P * pa.shell_pair_value M N <
      pa.tol * pa.tol)

/-- Contraction of one 3-index integral block against one density channel
(lines 688-711): the contribution of triplet (P,(M,N)) to G at auxiliary
function pf.  The p loop at line 702 runs only over auxiliary shell P's
function range [pstart, pstart + np), so the triplet contributes nothing
at any auxiliary function outside that range; inside it, the block is
contracted against the density, with the bra permutation term added when
N ≠ M. -/
def tripletBlockG (pa : DFJParams) (Dk : ℕ → ℕ → ℚ) (P M N : ℕ) (pf : ℕ) : ℚ :=
  if function_index pa.aux_counts P ≤ pf ∧
      pf < function_index pa.aux_counts P + nfunction pa.aux_counts P then
    sumRange (nfunction pa.counts M) (fun m =>
      sumRange (nfunction pa.counts N) (fun n =>
        pa.eri3 pf (function_index pa.counts M + m) (function_index pa.counts N + n) *
            Dk (function_index pa.counts M + m) (function_index pa.counts N + n) +
          if N ≠ M then
            pa.eri3 pf (function_index pa.counts M + m)
                (function_index pa.counts N + n) *
              Dk (function_index pa.counts N + n) (function_index pa.counts M + m)
          else 0))
  else 0

/-- The flat shell-triplet index space of the contraction loop (lines
673-683): MNP ranges over nshell_aux * nshellpair; MN = MNP % nshellpair
selects a shell pair and P = MNP / nshellpair an auxiliary shell. -/
def tripletList (pa : DFJParams) : List (ℕ × ℕ × ℕ) :=
  (List.range (pa.aux_counts.length * pa.shell_pairs.length)).map (fun MNP =>
    let MN := pa.shell_pairs.getD (MNP % pa.shell_pairs.length) (0, 0)
    (MNP / pa.shell_pairs.length, MN.1, MN.2))

/-- Accumulation of the forward contraction over a list of triplets: a
skipped triplet leaves the accumulator alone, any other triplet adds its
evaluated block contraction. -/
def sumTripletsG (pa : DFJParams) (D : List (ℕ → ℕ → ℚ)) (Dk : ℕ → ℕ → ℚ)
    (pf : ℕ) (ts : List (ℕ × ℕ × ℕ)) : ℚ :=
  ts.foldl (fun acc t =>
    if tripletSkipped pa D t.1 t.2.1 t.2.2 then acc
    else acc + tripletBlockG pa Dk t.1 t.2.1 t.2.2 pf) 0

/-- The auxiliary-indexed intermediate G of the forward contraction, for
one channel Dk, at auxiliary function pf. -/
def G_DFJ (pa : DFJParams) (D : List (ℕ → ℕ → ℚ)) (Dk : ℕ → ℕ → ℚ) (pf : ℕ) : ℚ :=
  sumTripletsG pa D Dk pf (tripletList pa)

/-- The computed_triplets1 benchmark counter over a list of triplets. -/
def countTriplets (pa : DFJParams) (D : List (ℕ → ℕ → ℚ))
    (ts : List (ℕ × ℕ × ℕ)) : ℕ :=
  ts.foldl (fun acc t =>
    if tripletSkipped pa D t.1 t.2.1 t.2.2 then acc else acc + 1) 0

/-- computed_triplets1: the number of evaluated triplets of the forward
contraction. -/
def computedTriplets1 (pa : DFJParams) (D : List (ℕ → ℕ → ℚ)) : ℕ :=
  countTriplets pa D (tripletList pa)

/-- Skip condition exactly as the specification words it: the plain
product of the density bound, the metric-diagonal bound and the Schwarz
bound, compared against the squared tolerance. -/
def tripletSkippedSpec (pa : DFJParams) (D : List (ℕ → ℕ → ℚ)) (P M N : ℕ) : Bool :=
  decide (Dshell pa.counts D M N *
    J_metric_shell_diag pa.aux_counts pa.J_metric P * pa.shell_pair_value M N <
      pa.tol * pa.tol)

theorem foldl_add_eq_sum {M : Type} [AddCommMonoid M] {α : Type} (f : α → M)
    (l : List α) (init : M) :
    l.foldl (fun a t => a + f t) init = init + (l.map f).sum := by
  induction l generalizing init with
  | nil => simp
  | cons x xs ih => simp [ih, add_assoc]

theorem sumTripletsG_eq_sum (pa : DFJParams) (D : List (ℕ → ℕ → ℚ))
    (Dk : ℕ → ℕ → ℚ) (pf : ℕ) (ts : List (ℕ × ℕ × ℕ)) :
    sumTripletsG pa D Dk pf ts =
      (ts.map (fun t =>
        if tripletSkipped pa D t.1 t.2.1 t.2.2 then 0
        else tripletBlockG pa Dk t.1 t.2.1 t.2.2 pf)).sum := by
  unfold sumTripletsG
  have hstep : (fun (acc : ℚ) (t : ℕ × ℕ × ℕ) =>
      if tripletSkipped pa D t.1 t.2.1 t.2.2 then acc
      else acc + tripletBlockG pa Dk t.1 t.2.1 t.2.2 pf) =
      (fun acc t => acc +
        (if tripletSkipped pa D t.1 t.2.1 t.2.2 then 0
         else tripletBlockG pa Dk t.1 t.2.1 t.2.2 pf)) := by
    funext acc t
    split <;> simp
  rw [hstep, foldl_add_eq_sum]
  simp

theorem countTriplets_eq_sum (pa : DFJParams) (D : List (ℕ → ℕ → ℚ))
    (ts : List (ℕ × ℕ × ℕ)) :
    countTriplets pa D ts =
      (ts.map (fun t =>
        if tripletSkipped pa D t.1 t.2.1 t.2.2 then 0 else 1)).sum := by
  unfold countTriplets
  have hstep : (fun (acc : ℕ) (t : ℕ × ℕ × ℕ) =>
      if tripletSkipped pa D t.1 t.2.1 t.2.2 then acc else acc + 1) =
      (fun acc t => acc +
        (if tripletSkipped pa D t.1 t.2.1 t.2.2 then 0 else 1)) := by
    funext acc t
    split <;> simp
  rw [hstep, foldl_add_eq_sum]
  simp

/-- C2 amended: in the forward contraction, a triplet whose screening
product — with the density bound entering squared — falls below the
squared tolerance contributes nothing to G and is not counted as
computed, while every other triplet adds exactly its 3-index block
contracted against the reference density and increments the computed
counter. -/
theorem dfj_forward_screening (pa : DFJParams) (D : List (ℕ → ℕ → ℚ))
    (Dk : ℕ → ℕ → ℚ) (pf : ℕ) (t1 t2 : List (ℕ × ℕ × ℕ)) (P M N : ℕ)
    (hsplit : tripletList pa = t1 ++ (P, M, N) :: t2) :
    (Dshell pa.counts D M N * Dshell pa.counts D M N *
        J_metric_shell_diag pa.aux_counts pa.J_metric P * pa.shell_pair_value M N <
          pa.tol * pa.tol →
      G_DFJ pa D Dk pf = sumTripletsG pa D Dk pf (t1 ++ t2) ∧
        computedTriplets1 pa D = countTriplets pa D (t1 ++ t2)) ∧
      (¬ (Dshell pa.counts D M N * Dshell pa.counts D M N *
          J_metric_shell_diag pa.aux_counts pa.J_metric P *
            pa.shell_pair_value M N < pa.tol * pa.tol) →
        G_DFJ pa D Dk pf =
            sumTripletsG pa D Dk pf (t1 ++ t2) + tripletBlockG pa Dk P M N pf ∧
          computedTriplets1 pa D = countTriplets pa D (t1 ++ t2) + 1) := by
  constructor
  · intro hlt
    have hskip : tripletSkipped pa D P M N = true := by
      simp [tripletSkipped, hlt]
    unfold G_DFJ computedTriplets1
    rw [hsplit, sumTripletsG_eq_sum, countTriplets_eq_sum,
      sumTripletsG_eq_sum, countTriplets_eq_sum]
    simp [hskip]
  · intro hge
    have hskip : tripletSkipped pa D P M N = false := by
      simp [tripletSkipped, hge]
    unfold G_DFJ computedTriplets1
    rw [hsplit, sumTripletsG_eq_sum, countTriplets_eq_sum,
      sumTripletsG_eq_sum, countTriplets_eq_sum]
    simp [hskip]
    exact ⟨by ring, by ring⟩

/-- One-shell parameters for the forward-contraction witness. -/
def c2pa : DFJParams :=
  { counts := [1], aux_counts := [1], shell_pairs := [(0, 0)],
    shell_pair_value := fun _ _ => 1, J_metric := fun _ _ => 1,
    eri3 := fun _ _ _ => 1, tol := 1 }

/-- Zero density channel for the forward-contraction witness. -/
def c2D : List (ℕ → ℕ → ℚ) := [fun _ _ => 0]

/-- Witness for dfj_forward_screening: with a zero density the single
triplet is screened out and contributes nothing. -/
theorem dfj_forward_screening_witness :
    G_DFJ c2pa c2D (fun _ _ => 0) 0 =
        sumTripletsG c2pa c2D (fun _ _ => 0) 0 ([] ++ []) ∧
      computedTriplets1 c2pa c2D = countTriplets c2pa c2D ([] ++ []) :=
  (dfj_forward_screening c2pa c2D (fun _ _ => 0) 0 [] [] 0 0 0 (by decide)).1
    (by simp [c2pa, c2D, Dshell, J_metric_shell_diag, nfunction, function_index,
      List.range_succ, sup_eq_max, max_def])

/-- Parameters on which the literal three-factor reading of the claim
disagrees with the code: density bound 2, metric and Schwarz bounds 1,
tolerance 2 (so thresh2 = 4). -/
def c2cexPa : DFJParams :=
  { counts := [1], aux_counts := [1], shell_pairs := [(0, 0)],
    shell_pair_value := fun _ _ => 1, J_metric := fun _ _ => 1,
    eri3 := fun _ _ _ => 1, tol := 2 }

/-- Density channel of the counterexample: the single entry is 2. -/
def c2cexD : List (ℕ → ℕ → ℚ) := [fun _ _ => 2]

/-- Counterexample to C2 as stated: at these inputs the plain product of
the three bounds (2 * 1 * 1 = 2) is below the squared tolerance 4, so
the claim says the triplet is skipped — but the code's test multiplies the
density bound twice (2 * 2 * 1 * 1 = 4, not below 4), evaluates the
triplet, counts it, and the triplet contributes 2 to G. -/
theorem dfj_forward_screening_spec_cex :
    tripletSkippedSpec c2cexPa c2cexD 0 0 0 = true ∧
      tripletSkipped c2cexPa c2cexD 0 0 0 = false ∧
      G_DFJ c2cexPa c2cexD (fun _ _ => 2) 0 = 2 ∧
      computedTriplets1 c2cexPa c2cexD = 1 := by
  refine ⟨?_, ?_, ?_, ?_⟩ <;>
    norm_num [tripletSkippedSpec, tripletSkipped, G_DFJ, sumTripletsG, tripletList,
      computedTriplets1, countTriplets, tripletBlockG, sumRange, Dshell,
      J_metric_shell_diag, nfunction, function_index, c2cexPa, c2cexD,
      List.range_succ, sup_eq_max, max_def]

/-! ## build_linK candidate scans (lines 1036-1077) -/

/-- Inputs of the LinK candidate scans: shell count, exchange cutoff
(linK_ints_cutoff_), the ERI engine's shell-pair density bound and
quartet shell-ceiling bound, and std::sqrt kept opaque (the scans only
compare the resulting value against the cutoff). -/
structure LinKScreen where
  nshell : ℕ
  cutoff : ℚ
  density : ℕ → ℕ → ℚ
  ceil2 : ℕ → ℕ → ℕ → ℕ → ℚ
  sqrtD : ℚ → ℚ

/-- Combined screening bound of the quartet scans (lines 1047 and 1065):
shell_pair_max_density(B, R) * sqrt(shell_ceiling2(P, Q, R, S)), where B
is P for the ML_P chain and Q for the ML_Q chain. -/
def linkScreenVal (c : LinKScreen) (B P Q R S : ℕ) : ℚ :=
  c.density B R * c.sqrtD (c.ceil2 P Q R S)

/-- Canonical encoding of a ket pair (lines 1051 and 1069): RS =
R*nshell+S with the larger shell first. -/
def encodeRS (nshell R S : ℕ) : ℕ :=
  if R ≥ S then R * nshell + S else S * nshell + R

/-- Scan of ket shell R's descending-sorted bra list (lines 1046-1057):
each candidate S is tested against the cutoff; a passing candidate marks
the chain significant and is retained into ML_PQ when its code does not
exceed the bra pair code; the first failing candidate ends the scan.
Returns (retained codes, is_significant, examined candidates). -/
def scanBraChain (c : LinKScreen) (B P Q R : ℕ) : List ℕ → List ℕ × Bool × List ℕ
  | [] => ([], false, [])
  | S :: rest =>
    if c.cutoff ≤ linkScreenVal c B P Q R S then
      let res := scanBraChain c B P Q R rest
      ((if encodeRS c.nshell R S ≤ P * c.nshell + Q then
          encodeRS c.nshell R S :: res.1
        else res.1), true, S :: res.2.2)
    else ([], false, [S])

/-- Scan of a bra shell's descending-sorted ket list (lines 1044-1059):
for each candidate R the bra list of R is scanned; when no S of that R
passed (is_significant stays false) the ket scan stops at R.  Returns
(retained codes, examined ket shells). -/
def scanKetChain (c : LinKScreen) (B P Q : ℕ) (bras : ℕ → List ℕ) :
    List ℕ → List ℕ × List ℕ
  | [] => ([], [])
  | R :: rest =>
    let res := scanBraChain c B P Q R (bras R)
    if res.2.1 then
      let resr := scanKetChain c B P Q bras rest
      (res.1 ++ resr.1, R :: resr.2)
    else (res.1, [R])

/-- C3: both LinK candidate chains stop exactly at the first failing
candidate.  When every S in the prefix passes the combined bound and bad
fails it, the bra-list scan examines exactly the prefix followed by bad
and never reaches the remainder; when every ket shell of the prefix has
a passing bra candidate and kbad has none, the ket-list scan examines
exactly the prefix followed by kbad. -/
theorem linK_chain_early_exit (c : LinKScreen) (B P Q R : ℕ)
    (good : List ℕ) (bad : ℕ) (rest : List ℕ) (bras : ℕ → List ℕ)
    (kgood : List ℕ) (kbad : ℕ) (krest : List ℕ)
    (hgood : ∀ S ∈ good, c.cutoff ≤ linkScreenVal c B P Q R S)
    (hbad : linkScreenVal c B P Q R bad < c.cutoff)
    (hkgood : ∀ T ∈ kgood, (scanBraChain c B P Q T (bras T)).2.1 = true)
    (hkbad : (scanBraChain c B P Q kbad (bras kbad)).2.1 = false) :
    (scanBraChain c B P Q R (good ++ bad :: rest)).2.2 = good ++ [bad] ∧
      (scanKetChain c B P Q bras (kgood ++ kbad :: krest)).2 = kgood ++ [kbad] := by
  constructor
  · induction good with
    | nil => simp [scanBraChain, not_le.mpr hbad]
    | cons S good ih =>
      have hS : c.cutoff ≤ linkScreenVal c B P Q R S :=
        hgood S (List.mem_cons_self S good)
      have hrest := ih (fun T hT => hgood T (List.mem_cons_of_mem S hT))
      simp [scanBraChain, hS, hrest]
  · induction kgood with
    | nil => simp [scanKetChain, hkbad]
    | cons T kgood ih =>
      have hT := hkgood T (List.mem_cons_self T kgood)
      have hrest := ih (fun U hU => hkgood U (List.mem_cons_of_mem T hU))
      simp [scanKetChain, hT, hrest]

/-- Screening inputs for the early-exit witness: a candidate passes the
bound exactly when it is shell 0. -/
def c3screen : LinKScreen :=
  { nshell := 2, cutoff := 1, density := fun _ _ => 1,
    ceil2 := fun _ _ _ S => if S = 0 then 1 else 0, sqrtD := fun x => x }

/-- Bra lists for the early-exit witness. -/
def c3bras : ℕ → List ℕ := fun R => [R]

/-- Witness for linK_chain_early_exit: both chains examine the passing
prefix [0] and the first failing candidate 1, and never examine the
trailing candidate 7. -/
theorem linK_chain_early_exit_witness :
    (scanBraChain c3screen 0 0 0 0 ([0] ++ 1 :: [7])).2.2 = [0] ++ [1] ∧
      (scanKetChain c3screen 0 0 0 c3bras ([0] ++ 1 :: [7])).2 = [0] ++ [1] :=
  linK_chain_early_exit c3screen 0 0 0 0 [0] 1 [7] c3bras [0] 1 [7]
    (by intro S hS
        simp at hS
        simp [hS, linkScreenVal, c3screen])
    (by simp [linkScreenVal, c3screen])
    (by intro T hT
        simp at hT
        simp [hT, scanBraChain, linkScreenVal, c3screen, c3bras])
    (by simp [scanBraChain, linkScreenVal, c3screen, c3bras,
          (by decide : ¬ ((1 : ℚ) ≤ 0))])

/-! ## build_linK quartet contraction prefactors (lines 1110-1155) -/

/-- Degeneracy prefactor of the quartet contraction, computed by
successive halvings exactly as at lines 1129-1132. -/
def linK_prefactor (P Q R S : ℕ) : ℚ :=
  let pf : ℚ := 1
  let pf := if P = Q then pf * (1 / 2) else pf
  let pf := if R = S then pf * (1 / 2) else pf
  let pf := if P = R ∧ Q = S then pf * (1 / 2) else pf
  pf

/-- Data of one surviving quartet block: function counts and global
function indices of the four shells, the density channel, and the
4-index integral buffer by local indices. -/
structure QuartetBlock where
  nPf : ℕ
  nQf : ℕ
  nRf : ℕ
  nSf : ℕ
  Pstart : ℕ
  Qstart : ℕ
  Rstart : ℕ
  Sstart : ℕ
  D : ℕ → ℕ → ℚ
  eri : ℕ → ℕ → ℕ → ℕ → ℚ

/-- Total value accumulated into the K1 (PR) sub-block cell of local row
p and column r + Rstart over the quadruple loop (lines 1135-1153): the
sum over q and s of prefactor * D[q+Qstart][s+Sstart] * integral. -/
def quartetK1cell (qb : QuartetBlock) (P Q R S p r : ℕ) : ℚ :=
  sumRange qb.nQf (fun q => sumRange qb.nSf (fun s =>
    linK_prefactor P Q R S * qb.D (qb.Qstart + q) (qb.Sstart + s) * qb.eri p q r s))

/-- Total value accumulated into the K2 (PS) sub-block cell. -/
def quartetK2cell (qb : QuartetBlock) (P Q R S p s : ℕ) : ℚ :=
  sumRange qb.nQf (fun q => sumRange qb.nRf (fun r =>
    linK_prefactor P Q R S * qb.D (qb.Qstart + q) (qb.Rstart + r) * qb.eri p q r s))

/-- Total value accumulated into the K3 (QR) sub-block cell. -/
def quartetK3cell (qb : QuartetBlock) (P Q R S q r : ℕ) : ℚ :=
  sumRange qb.nPf (fun p => sumRange qb.nSf (fun s =>
    linK_prefactor P Q R S * qb.D (qb.Pstart + p) (qb.Sstart + s) * qb.eri p q r s))

/-- Total value accumulated into the K4 (QS) sub-block cell. -/
def quartetK4cell (qb : QuartetBlock) (P Q R S q s : ℕ) : ℚ :=
  sumRange qb.nPf (fun p => sumRange qb.nRf (fun r =>
    linK_prefactor P Q R S * qb.D (qb.Pstart + p) (qb.Rstart + r) * qb.eri p q r s))

theorem sumRange_mul_left (n : ℕ) (c : ℚ) (f : ℕ → ℚ) :
    sumRange n (fun i => c * f i) = c * sumRange n f := by
  unfold sumRange
  induction (List.range n) with
  | nil => simp
  | cons x xs ih => simp [ih, mul_add]

theorem sumRange_congr (n : ℕ) (f g : ℕ → ℚ) (h : ∀ i, f i = g i) :
    sumRange n f = sumRange n g := by
  unfold sumRange
  congr 1
  exact List.map_congr_left (fun i _ => h i)

/-- C4: the contribution a surviving quartet scatters into each of the
four sub-blocks (PR, PS, QR, QS) carries the degeneracy prefactor, and
that prefactor is one-half per coincidence P=Q, R=S and (P,Q)=(R,S)
(i.e. P=R and Q=S), multiplied together, so every sub-block value is the
prefactor times the unscaled density-integral contraction. -/
theorem linK_degeneracy_prefactor (P Q R S : ℕ) (qb : QuartetBlock)
    (p q r s : ℕ) :
    linK_prefactor P Q R S =
        (if P = Q then (1 : ℚ) / 2 else 1) * (if R = S then (1 : ℚ) / 2 else 1) *
          (if P = R ∧ Q = S then (1 : ℚ) / 2 else 1) ∧
      quartetK1cell qb P Q R S p r =
          linK_prefactor P Q R S *
            sumRange qb.nQf (fun q2 => sumRange qb.nSf (fun s2 =>
              qb.D (qb.Qstart + q2) (qb.Sstart + s2) * qb.eri p q2 r s2)) ∧
      quartetK2cell qb P Q R S p s =
          linK_prefactor P Q R S *
            sumRange qb.nQf (fun q2 => sumRange qb.nRf (fun r2 =>
              qb.D (qb.Qstart + q2) (qb.Rstart + r2) * qb.eri p q2 r2 s)) ∧
      quartetK3cell qb P Q R S q r =
          linK_prefactor P Q R S *
            sumRange qb.nPf (fun p2 => sumRange qb.nSf (fun s2 =>
              qb.D (qb.Pstart + p2) (qb.Sstart + s2) * qb.eri p2 q r s2)) ∧
      quartetK4cell qb P Q R S q s =
          linK_prefactor P Q R S *
            sumRange qb.nPf (fun p2 => sumRange qb.nRf (fun r2 =>
              qb.D (qb.Pstart + p2) (qb.Rstart + r2) * qb.eri p2 q r2 s)) := by
  refine ⟨?_, ?_, ?_, ?_, ?_⟩
  · unfold linK_prefactor
    split_ifs <;> ring
  all_goals
    simp only [quartetK1cell, quartetK2cell, quartetK3cell, quartetK4cell]
    rw [← sumRange_mul_left]
    refine sumRange_congr _ _ _ (fun i => ?_)
    rw [← sumRange_mul_left]
    refine sumRange_congr _ _ _ (fun j => ?_)
    ring

/-! ## Output symmetrization (build_DirectDFJ lines 821-827, build_linK lines 1226-1228, build_COSK lines 1640-1648) -/

/-- Dense matrices of the builder outputs, as entry functions. -/
abbrev MatF := ℕ → ℕ → ℚ

/-- Matrix::add, elementwise. -/
def matAddF (A B : MatF) : MatF := fun i j => A i j + B i j

/-- Matrix::hermitivitize on a real matrix: every entry is averaged with
its transpose partner. -/
def hermitivitize (A : MatF) : MatF := fun i j => (A i j + A j i) / 2

/-- Final stage of build_DirectDFJ for one channel (lines 821-826): add
the per-thread J buffers onto the output, then hermitivitize. -/
def directDFJ_finalize (JT : List MatF) (J : MatF) : MatF :=
  hermitivitize (JT.foldl matAddF J)

/-- Final stage of build_linK for one channel (lines 1226-1228): the
accumulated K matrix is hermitivitized unconditionally. -/
def linK_finalize (K : MatF) : MatF := hermitivitize K

/-- Final stage of build_COSK for one channel (lines 1640-1648): add the
per-thread K buffers onto the output, then hermitivitize exactly when
the exchange build is declared symmetric (lr_symmetric_). -/
def COSK_finalize (lr_symmetric : Bool) (KT : List MatF) (K : MatF) : MatF :=
  let Ksum := KT.foldl matAddF K
  if lr_symmetric then hermitivitize Ksum else Ksum

/-- C5: the J-builder and the LinK K-builder force Hermitian symmetry on
every output matrix after the final accumulation, so their outputs are
symmetric (for any densities, in particular symmetric ones); the COSX
K-builder applies that symmetrization exactly when the exchange build is
declared symmetric — its output is then symmetric too, and with the flag
down the accumulated matrix is returned unsymmetrized. -/
theorem jk_output_symmetry (JT KT : List MatF) (J K Kc : MatF) (i j : ℕ) :
    directDFJ_finalize JT J i j = directDFJ_finalize JT J j i ∧
      linK_finalize K i j = linK_finalize K j i ∧
      COSK_finalize true KT Kc i j = COSK_finalize true KT Kc j i ∧
      COSK_finalize false KT Kc = KT.foldl matAddF Kc := by
  refine ⟨?_, ?_, ?_, rfl⟩ <;>
    · simp [directDFJ_finalize, linK_finalize, COSK_finalize, hermitivitize]
      ring

end CompositeJK